import Mathlib

/-!
# Verification of the weekly-schedule engine of the Discordbot repository

Shallow embedding of the data model and operations of
`src/storage.py` (`AvailabilityStore`, `GuildConfigStore`) and
`src/scheduler.py` (`ScheduleBuilder.build_week`, `_select_premier_team`,
`_suggest_lineup`), together with theorems settling the specification
claims about them.

Modelling conventions:
* Python dicts become association lists (`List (κ × α)`) preserving
  insertion order; assignment replaces the first matching key in place and
  appends fresh keys at the end, exactly like CPython dicts.
* A dict key that may be absent is modelled with an outer `Option`
  (so `Option (Option β)`: `none` = key absent, `some none` = key present
  holding Python `None`).
* User ids are `Nat`; Python stores them as `str(user_id)` keys, which is
  a bijective renaming and is undone by `int(user_id)` on every read.
* Python `str.lower`/`str.upper` become per-character ASCII maps, which
  agree with Python on all strings appearing in this program.
* Python's stable `sorted` becomes a stable insertion sort; for a fixed
  key function both produce the unique stable ordering.
* `_persist`/`_load` (file I/O) are outside the model: they write the
  in-memory state unchanged, so every claim here is about the in-memory
  state the Python code mutates.
-/

namespace Discordbot

/-! ## Generic association-list operations (Python dict semantics) -/

/-- `m.get(k)` — first binding wins (keys are unique in an actual dict). -/
def alookup {κ α : Type} [DecidableEq κ] (k : κ) : List (κ × α) → Option α
  | [] => none
  | p :: rest => if p.1 = k then some p.2 else alookup k rest

/-- `m[k] = v` — replace in place if the key exists, else append. -/
def aset {κ α : Type} [DecidableEq κ] (k : κ) (v : α) : List (κ × α) → List (κ × α)
  | [] => [(k, v)]
  | p :: rest => if p.1 = k then (k, v) :: rest else p :: aset k v rest

/-- `m.setdefault(k, v)` — insert only when the key is absent. -/
def asetdefault {κ α : Type} [DecidableEq κ] (k : κ) (v : α)
    (m : List (κ × α)) : List (κ × α) :=
  if (alookup k m).isSome then m else m ++ [(k, v)]

/-! ## String helpers mirroring the Python primitives used by the code -/

/-- Python `str.lower` (ASCII range; all strings in this program are ASCII). -/
def lowerString (s : String) : String := ⟨s.data.map Char.toLower⟩

/-- Python `str.upper` (ASCII range). -/
def upperString (s : String) : String := ⟨s.data.map Char.toUpper⟩

/-- Lexicographic strict comparison on code points, as Python `<` on `str`. -/
def strLtb : List Char → List Char → Bool
  | [], [] => false
  | [], _ :: _ => true
  | _ :: _, [] => false
  | a :: as, b :: bs =>
    if a.toNat < b.toNat then true
    else if b.toNat < a.toNat then false
    else strLtb as bs

/-- Python `s <= t` on strings. -/
def strLeb (s t : String) : Bool := !(strLtb t.data s.data)

/-- Stable insertion: place `x` before the first `y` with `le x y`. -/
def insertBy {α : Type} (le : α → α → Bool) (x : α) : List α → List α
  | [] => [x]
  | y :: ys => if le x y then x :: y :: ys else y :: insertBy le x ys

/-- Stable insertion sort; with `le x y` true on ties this keeps the input
order of equal elements, matching Python's stable `sorted`. -/
def sortBy {α : Type} (le : α → α → Bool) : List α → List α
  | [] => []
  | x :: xs => insertBy le x (sortBy le xs)

/-- Python `sorted` on a set of strings: distinct elements in code-point
order (the `dedup` direction is irrelevant because the result is sorted). -/
def sortedStringSet (l : List String) : List String := sortBy strLeb l.dedup

/-! ## `storage.py` — `WEEK_DAYS` and defaults -/

/-- `storage.WEEK_DAYS`. -/
def WEEK_DAYS : List String :=
  ["monday", "tuesday", "wednesday", "thursday", "friday", "saturday", "sunday"]

/-- `storage.DEFAULT_SCRIM_TIMES` (only ever indexed at days in `WEEK_DAYS`). -/
def DEFAULT_SCRIM_TIMES : String → Option String := fun d =>
  if d = "wednesday" ∨ d = "thursday" ∨ d = "sunday" then some "19:00"
  else if d = "friday" ∨ d = "saturday" then some "20:00"
  else none

/-- `storage.DEFAULT_PREMIER_WINDOWS`. -/
def DEFAULT_PREMIER_WINDOWS : String → Option String := fun d =>
  if d = "wednesday" ∨ d = "thursday" ∨ d = "sunday" then some "19:00-20:00"
  else if d = "friday" ∨ d = "saturday" then some "20:00-21:00"
  else none

/-- `storage.DEFAULT_PRACTICE_TIMES` — off for every day. -/
def DEFAULT_PRACTICE_TIMES : String → Option String := fun _ => none

/-! ## `storage.AvailabilityStore`

A user record is a Python dict whose keys may individually be absent;
each field therefore carries an outer `Option` for key presence. -/

structure UserEntry where
  display_name : Option String
  team : Option (Option String)
  days : Option (List String)
  roles : Option (List String)
  agents : Option (List String)
  timezone : Option (Option String)
deriving DecidableEq

/-- The record with no keys at all (Python `{}`). -/
def emptyEntry : UserEntry := ⟨none, none, none, none, none, none⟩

/-- Python truthiness of the entry dict: `{}` is falsy. -/
def UserEntry.isEmptyDict (e : UserEntry) : Bool :=
  e.display_name.isNone && e.team.isNone && e.days.isNone &&
    e.roles.isNone && e.agents.isNone && e.timezone.isNone

/-- The `"users"` dict of `AvailabilityStore._data`, in insertion order. -/
abbrev AvailState : Type := List (Nat × UserEntry)

/-- The store contents right after `__init__` on a fresh path. -/
def initAvail : AvailState := []

/-- `AvailabilityStore.set_availability`: store
`sorted({day.lower() for day in days})` plus name/team, `setdefault`ing
roles and agents to `[]`. -/
def set_availability (s : AvailState) (user_id : Nat) (display_name : String)
    (team : Option String) (days : List String) : AvailState :=
  let normalized_days := sortedStringSet (days.map lowerString)
  let entry := (alookup user_id s).getD emptyEntry
  let entry :=
    { entry with
      display_name := some display_name
      team := some team
      days := some normalized_days
      roles := some (entry.roles.getD [])
      agents := some (entry.agents.getD []) }
  aset user_id entry s

/-- `AvailabilityStore.clear_user`: empty the days but keep everything else;
a missing user (or a falsy `{}` record) is left untouched. -/
def clear_user (s : AvailState) (user_id : Nat) : AvailState :=
  match alookup user_id s with
  | none => s
  | some e =>
    if e.isEmptyDict then s
    else aset user_id { e with days := some [] } s

/-- `AvailabilityStore.reset_all` (state part; it also returns the count). -/
def reset_all (s : AvailState) : AvailState :=
  s.map fun p => (p.1, { p.2 with days := some [] })

/-- `AvailabilityStore.set_agents`. -/
def set_agents (s : AvailState) (user_id : Nat) (display_name : String)
    (roles agents : List String) : AvailState :=
  let entry := (alookup user_id s).getD emptyEntry
  let entry :=
    { entry with
      display_name := some display_name
      days := some (entry.days.getD [])
      team := some (entry.team.getD none)
      roles := some (sortedStringSet (roles.map lowerString))
      agents := some (sortedStringSet agents) }
  aset user_id entry s

/-- `AvailabilityStore.clear_agents`: pop the roles/agents keys. -/
def clear_agents (s : AvailState) (user_id : Nat) : AvailState :=
  match alookup user_id s with
  | none => s
  | some e =>
    if e.isEmptyDict then s
    else aset user_id { e with roles := none, agents := none } s

/-- `AvailabilityStore.set_user_timezone` (`users.setdefault(key, {})` then
assignment — the net effect on the entry is the same either way). -/
def set_user_timezone (s : AvailState) (user_id : Nat) (tz : String) : AvailState :=
  let entry := (alookup user_id s).getD emptyEntry
  aset user_id { entry with timezone := some (some tz) } s

/-- `AvailabilityStore.get_user_days`. -/
def get_user_days (s : AvailState) (user_id : Nat) : List String :=
  ((alookup user_id s).getD emptyEntry).days.getD []

/-- One element of the list `users_for_day` returns: a fresh dict with the
keys `id`, `display_name`, `team`, `roles`, `agents` always present. -/
structure DayUser where
  id : Nat
  display_name : String
  team : Option String
  roles : List String
  agents : List String
deriving DecidableEq

/-- `AvailabilityStore.users_for_day`. -/
def users_for_day (s : AvailState) (day : String) : List DayUser :=
  let d := lowerString day
  (s.filter fun p => d ∈ p.2.days.getD []).map fun p =>
    { id := p.1
      display_name := p.2.display_name.getD "Unknown"
      team := p.2.team.getD none
      roles := p.2.roles.getD []
      agents := p.2.agents.getD [] }

/-! ## `storage.GuildConfigStore` -/

/-- Value of one `locked_lineups` slot (`{"player_ids": ..., "locked_at": ...}`;
both keys are always written together by `set_locked_lineup`). -/
structure LockedLineup where
  player_ids : List Nat
  locked_at : String
deriving DecidableEq

/-- One guild's config dict.  Every key can be individually absent in a
document loaded from disk, hence the outer `Option` on each field; the
per-day tables are dicts from day name to nullable string. -/
structure GuildConfig where
  announcement_channel_id : Option (Option Nat)
  ping_role_id : Option (Option Nat)
  team_a_role_id : Option (Option Nat)
  team_b_role_id : Option (Option Nat)
  scrim_times : Option (List (String × Option String))
  premier_windows : Option (List (String × Option String))
  practice_times : Option (List (String × Option String))
  scrim_maps : Option (List (String × Option String))
  premier_maps : Option (List (String × Option String))
  practice_maps : Option (List (String × Option String))
  locked_lineups : Option (List (String × LockedLineup))
  reminder_channel_id : Option (Option Nat)
  reminders_enabled : Option Bool
deriving DecidableEq

/-- `GuildConfigStore._data`: guild id (a decimal string in Python) to config. -/
abbrev ConfigState : Type := List (Nat × GuildConfig)

/-- The store contents right after `__init__` on a fresh path. -/
def initConfig : ConfigState := []

/-- `{d: defaults[d] for d in WEEK_DAYS}`. -/
def defaultDayMap (f : String → Option String) : List (String × Option String) :=
  WEEK_DAYS.map fun d => (d, f d)

/-- The dict `_ensure_guild` installs for a brand-new guild id. -/
def freshGuildConfig : GuildConfig :=
  { announcement_channel_id := some none
    ping_role_id := some none
    team_a_role_id := some none
    team_b_role_id := some none
    scrim_times := some (defaultDayMap DEFAULT_SCRIM_TIMES)
    premier_windows := some (defaultDayMap DEFAULT_PREMIER_WINDOWS)
    practice_times := some (defaultDayMap DEFAULT_PRACTICE_TIMES)
    scrim_maps := some (defaultDayMap fun _ => none)
    premier_maps := some (defaultDayMap fun _ => none)
    practice_maps := some (defaultDayMap fun _ => none)
    locked_lineups := none
    reminder_channel_id := none
    reminders_enabled := none }

/-- A `for d in L: table.setdefault(d, f(d))` loop. -/
def setdefaultList (f : String → Option String) (L : List String)
    (m : List (String × Option String)) : List (String × Option String) :=
  L.foldl (fun acc d => asetdefault d (f d) acc) m

/-- The `for d in WEEK_DAYS: table.setdefault(d, defaults[d])` loop of
`_ensure_guild` (the six tables are independent, so the single Python loop
over all six is modelled as one such loop per table). -/
def setdefaultDays (f : String → Option String)
    (m : List (String × Option String)) : List (String × Option String) :=
  setdefaultList f WEEK_DAYS m

/-- The `else` branch of `_ensure_guild`: fill in any missing keys of an
existing guild dict. -/
def ensureGuildEntry (g : GuildConfig) : GuildConfig :=
  { g with
    announcement_channel_id := some (g.announcement_channel_id.getD none)
    ping_role_id := some (g.ping_role_id.getD none)
    team_a_role_id := some (g.team_a_role_id.getD none)
    team_b_role_id := some (g.team_b_role_id.getD none)
    scrim_times := some (setdefaultDays DEFAULT_SCRIM_TIMES (g.scrim_times.getD []))
    premier_windows := some (setdefaultDays DEFAULT_PREMIER_WINDOWS (g.premier_windows.getD []))
    practice_times := some (setdefaultDays DEFAULT_PRACTICE_TIMES (g.practice_times.getD []))
    scrim_maps := some (setdefaultDays (fun _ => none) (g.scrim_maps.getD []))
    premier_maps := some (setdefaultDays (fun _ => none) (g.premier_maps.getD []))
    practice_maps := some (setdefaultDays (fun _ => none) (g.practice_maps.getD [])) }

/-- `GuildConfigStore._ensure_guild`: returns the guild dict and — because
it writes defaults into `_data` — the updated store state. -/
def ensure_guild (c : ConfigState) (guild_id : Nat) : GuildConfig × ConfigState :=
  match alookup guild_id c with
  | none => (freshGuildConfig, c ++ [(guild_id, freshGuildConfig)])
  | some g =>
    let g := ensureGuildEntry g
    (g, aset guild_id g c)

/-- `g["premier_windows"].get(day.lower())` on an ensured guild dict. -/
def premierWindowOf (g : GuildConfig) (day : String) : Option String :=
  (alookup (lowerString day) (g.premier_windows.getD [])).join

/-- `g["scrim_times"].get(day.lower())`. -/
def scrimTimeOf (g : GuildConfig) (day : String) : Option String :=
  (alookup (lowerString day) (g.scrim_times.getD [])).join

/-- `g["practice_times"].get(day.lower())`. -/
def practiceTimeOf (g : GuildConfig) (day : String) : Option String :=
  (alookup (lowerString day) (g.practice_times.getD [])).join

/-- `g["premier_maps"].get(day.lower())`. -/
def premierMapOf (g : GuildConfig) (day : String) : Option String :=
  (alookup (lowerString day) (g.premier_maps.getD [])).join

/-- `g["scrim_maps"].get(day.lower())`. -/
def scrimMapOf (g : GuildConfig) (day : String) : Option String :=
  (alookup (lowerString day) (g.scrim_maps.getD [])).join

/-- `g["practice_maps"].get(day.lower())`. -/
def practiceMapOf (g : GuildConfig) (day : String) : Option String :=
  (alookup (lowerString day) (g.practice_maps.getD [])).join

/-- `g.get("locked_lineups", {}).get(f"{day.lower()}_{match_type}")`. -/
def lockedLineupOf (g : GuildConfig) (day mtype : String) : Option LockedLineup :=
  alookup (lowerString day ++ "_" ++ mtype) (g.locked_lineups.getD [])

/-- `GuildConfigStore.get_premier_window` (value and post-call store state). -/
def get_premier_window (c : ConfigState) (guild_id : Nat) (day : String) :
    Option String × ConfigState :=
  let p := ensure_guild c guild_id
  (premierWindowOf p.1 day, p.2)

/-- `GuildConfigStore.get_scrim_time`. -/
def get_scrim_time (c : ConfigState) (guild_id : Nat) (day : String) :
    Option String × ConfigState :=
  let p := ensure_guild c guild_id
  (scrimTimeOf p.1 day, p.2)

/-- `GuildConfigStore.get_practice_time`. -/
def get_practice_time (c : ConfigState) (guild_id : Nat) (day : String) :
    Option String × ConfigState :=
  let p := ensure_guild c guild_id
  (practiceTimeOf p.1 day, p.2)

/-- `GuildConfigStore.get_premier_map`. -/
def get_premier_map (c : ConfigState) (guild_id : Nat) (day : String) :
    Option String × ConfigState :=
  let p := ensure_guild c guild_id
  (premierMapOf p.1 day, p.2)

/-- `GuildConfigStore.get_scrim_map`. -/
def get_scrim_map (c : ConfigState) (guild_id : Nat) (day : String) :
    Option String × ConfigState :=
  let p := ensure_guild c guild_id
  (scrimMapOf p.1 day, p.2)

/-- `GuildConfigStore.get_practice_map`. -/
def get_practice_map (c : ConfigState) (guild_id : Nat) (day : String) :
    Option String × ConfigState :=
  let p := ensure_guild c guild_id
  (practiceMapOf p.1 day, p.2)

/-- `GuildConfigStore.get_locked_lineup`. -/
def get_locked_lineup (c : ConfigState) (guild_id : Nat) (day mtype : String) :
    Option LockedLineup × ConfigState :=
  let p := ensure_guild c guild_id
  (lockedLineupOf p.1 day mtype, p.2)

/-! ## `scheduler.py` -/

/-- `scheduler.ROLE_PRIORITY`. -/
def ROLE_PRIORITY : List String :=
  ["controller", "sentinel", "initiator", "duelist"]

/-- `scheduler.PlayerInfo`. -/
structure PlayerInfo where
  user_id : Nat
  display_name : String
  team : Option String
  roles : List String
  agents : List String
deriving DecidableEq

/-- `scheduler.LineupSuggestion`. -/
structure LineupSuggestion where
  players : List PlayerInfo
  missing_roles : List String
  is_complete : Bool
  has_all_roles : Bool
deriving DecidableEq

/-- `scheduler.DaySummary` (the data fields; `to_lines` is presentation). -/
structure DaySummary where
  day : String
  total_available : Nat
  team_counts : List (String × Nat)
  premier_team : Option String
  premier_window : Option String
  premier_map : Option String
  practice_time : Option String
  practice_map : Option String
  scrim_time : Option String
  scrim_map : Option String
  practice_ready : Bool
  practice_missing : Int
  scrim_ready : Bool
  scrim_missing : Int
  available_names : List String
  lineup_suggestion : Option LineupSuggestion
  locked_lineup_ids : Option (List Nat)
deriving DecidableEq

/-- `(str(info.get("team") or "")).upper()` — the team string the tally
loop normalizes each user record to. -/
def normTeam (team : Option String) : String := upperString (team.getD "")

/-- Accumulator of the per-user loop in `build_week` (lines 139–152):
`team_counts` (keys fixed to `A`, `B`), `names`, `players`. -/
structure DayTally where
  countA : Nat
  countB : Nat
  names : List String
  players : List PlayerInfo
deriving DecidableEq

/-- The `PlayerInfo(...)` record built for one user (lines 146–152):
team is kept only when the normalized value is `A` or `B`. -/
def playerOf (u : DayUser) : PlayerInfo :=
  let team := normTeam u.team
  { user_id := u.id
    display_name := u.display_name
    team := if team = "A" ∨ team = "B" then some team else none
    roles := u.roles
    agents := u.agents }

/-- One iteration of the loop body. -/
def tallyStep (acc : DayTally) (u : DayUser) : DayTally :=
  let team := normTeam u.team
  let acc :=
    if team = "A" then { acc with countA := acc.countA + 1 }
    else if team = "B" then { acc with countB := acc.countB + 1 }
    else acc
  { acc with
    names := acc.names ++ [u.display_name]
    players := acc.players ++ [playerOf u] }

/-- The whole `for info in users` loop. -/
def tallyUsers (users : List DayUser) : DayTally :=
  users.foldl tallyStep ⟨0, 0, [], []⟩

/-- `ScheduleBuilder._select_premier_team`: Python `max` keeps the first
element whose key is maximal, scanning in dict (insertion) order. -/
def maxByFirst {α : Type} (key : α → Nat) : List α → Option α
  | [] => none
  | x :: xs => some (xs.foldl (fun best y => if key best < key y then y else best) x)

/-- `_select_premier_team(team_counts)`. -/
def select_premier_team (team_counts : List (String × Nat)) : Option String :=
  let qualified := team_counts.filter fun p => 5 ≤ p.2
  (maxByFirst (fun p => p.2) qualified).map fun p => p.1

/-- `role_score` inside `_suggest_lineup`. -/
def role_score (p : PlayerInfo) : Nat :=
  let s := ROLE_PRIORITY.enum.foldl
    (fun s ir => if ir.2 ∈ p.roles then s + (ROLE_PRIORITY.length - ir.1) * 10 else s) 0
  if p.roles.isEmpty then s else s + 5

/-- `sorted(players, key=role_score, reverse=True)` — stable descending. -/
def sortPlayersDesc (ps : List PlayerInfo) : List PlayerInfo :=
  sortBy (fun p q => role_score q ≤ role_score p) ps

/-- First pass of `_suggest_lineup` (lines 250–257): take a player when it
covers a new role **or has no roles at all**. -/
def firstPass : List PlayerInfo → List PlayerInfo → List String →
    List PlayerInfo × List String
  | [], selected, covered => (selected, covered)
  | p :: rest, selected, covered =>
    if 5 ≤ selected.length then (selected, covered)
    else
      let new_roles := p.roles.filter fun r => r ∉ covered
      if ¬ new_roles.isEmpty ∨ p.roles.isEmpty then
        firstPass rest (selected ++ [p]) (covered ++ new_roles)
      else firstPass rest selected covered

/-- Second pass (lines 260–265): fill remaining slots in score order. -/
def secondPass : List PlayerInfo → List PlayerInfo → List String →
    List PlayerInfo × List String
  | [], selected, covered => (selected, covered)
  | p :: rest, selected, covered =>
    if 5 ≤ selected.length then (selected, covered)
    else if p ∈ selected then secondPass rest selected covered
    else secondPass rest (selected ++ [p]) (covered ++ p.roles.filter fun r => r ∉ covered)

/-- The candidate pool of `_suggest_lineup` (lines 226–229).  Note the
Python truthiness test `if target_team:` — `None` and `""` both skip the
team filter. -/
def lineup_pool (players : List PlayerInfo) (target_team : Option String) :
    List PlayerInfo :=
  if (target_team.getD "") ≠ "" then
    let team_players := players.filter fun p => p.team = target_team
    if 5 ≤ team_players.length then team_players else players
  else players

/-- `ScheduleBuilder._suggest_lineup`. -/
def suggest_lineup (players : List PlayerInfo) (target_team : Option String) :
    LineupSuggestion :=
  let sorted_players := sortPlayersDesc (lineup_pool players target_team)
  let sc := firstPass sorted_players [] []
  let sc := secondPass sorted_players sc.1 sc.2
  let missing_roles := ROLE_PRIORITY.filter fun r => r ∉ sc.2
  { players := sc.1
    missing_roles := missing_roles
    is_complete := 5 ≤ sc.1.length
    has_all_roles := missing_roles.isEmpty }

/-- Python truthiness of `Optional[str]` (`if premier_window:`). -/
def optStrTruthy (w : Option String) : Bool := (w.getD "") ≠ ""

/-- The body of `build_week`'s `for day in WEEK_DAYS` loop for one day,
threading the config-store state mutated by `_ensure_guild`. -/
def buildDay (a : AvailState) (c : ConfigState) (guild_id : Nat)
    (include_lineup_suggestions : Bool) (day : String) : DaySummary × ConfigState :=
  let users := users_for_day a day
  let t := tallyUsers users
  let team_counts : List (String × Nat) := [("A", t.countA), ("B", t.countB)]
  let pw := get_premier_window c guild_id day
  let st := get_scrim_time pw.2 guild_id day
  let pt := get_practice_time st.2 guild_id day
  let pm := get_premier_map pt.2 guild_id day
  let sm := get_scrim_map pm.2 guild_id day
  let prm := get_practice_map sm.2 guild_id day
  let premier_team := if optStrTruthy pw.1 then select_premier_team team_counts else none
  let total := users.length
  let practice_ready := pt.1.isSome && decide (5 ≤ total)
  let practice_missing : Int := if pt.1.isSome then max 0 (5 - (total : Int)) else 0
  let scrim_ready := st.1.isSome && decide (10 ≤ total)
  let scrim_missing : Int := if st.1.isSome then max 0 (10 - (total : Int)) else 0
  let lineup_suggestion :=
    if include_lineup_suggestions && decide (5 ≤ total) then
      some (suggest_lineup t.players premier_team)
    else none
  let ll := get_locked_lineup prm.2 guild_id day "premier"
  let locked_lineup_ids := ll.1.map fun l => l.player_ids
  (⟨day, total, team_counts, premier_team, pw.1, pm.1, pt.1, prm.1, st.1, sm.1,
    practice_ready, practice_missing, scrim_ready, scrim_missing,
    t.names, lineup_suggestion, locked_lineup_ids⟩, ll.2)

/-- `ScheduleBuilder.build_week`: the summaries in week order, together with
the config-store state after the call (the availability store is only read). -/
def build_week (a : AvailState) (c : ConfigState) (guild_id : Nat)
    (include_lineup_suggestions : Bool) : List DaySummary × ConfigState :=
  WEEK_DAYS.foldl
    (fun acc day =>
      let r := buildDay a acc.2 guild_id include_lineup_suggestions day
      (acc.1 ++ [r.1], r.2))
    ([], c)

/-- The value of one `DaySummary` as a function of the availability state
and the (ensured) guild config dict alone; `buildDay_eq` below shows the
threaded loop body computes exactly this. -/
def buildDayPure (a : AvailState) (g : GuildConfig)
    (include_lineup_suggestions : Bool) (day : String) : DaySummary :=
  let users := users_for_day a day
  let t := tallyUsers users
  let team_counts : List (String × Nat) := [("A", t.countA), ("B", t.countB)]
  let premier_window := premierWindowOf g day
  let scrim_time := scrimTimeOf g day
  let practice_time := practiceTimeOf g day
  let premier_team := if optStrTruthy premier_window then select_premier_team team_counts else none
  let total := users.length
  let practice_ready := practice_time.isSome && decide (5 ≤ total)
  let practice_missing : Int := if practice_time.isSome then max 0 (5 - (total : Int)) else 0
  let scrim_ready := scrim_time.isSome && decide (10 ≤ total)
  let scrim_missing : Int := if scrim_time.isSome then max 0 (10 - (total : Int)) else 0
  let lineup_suggestion :=
    if include_lineup_suggestions && decide (5 ≤ total) then
      some (suggest_lineup t.players premier_team)
    else none
  let locked_lineup_ids := (lockedLineupOf g day "premier").map fun l => l.player_ids
  ⟨day, total, team_counts, premier_team, premier_window, premierMapOf g day,
    practice_time, practiceMapOf g day, scrim_time, scrimMapOf g day,
    practice_ready, practice_missing, scrim_ready, scrim_missing,
    t.names, lineup_suggestion, locked_lineup_ids⟩

/-! ## Claim-side definition for the lineup heuristic (C6)

`firstPassClaim` follows the words of the claim — the first pass "selects
… only players whose role set contributes at least one role not yet
covered" — with everything else identical to the code. -/

/-- First pass exactly as the claim describes it (no special case for
players without declared roles). -/
def firstPassClaim : List PlayerInfo → List PlayerInfo → List String →
    List PlayerInfo × List String
  | [], selected, covered => (selected, covered)
  | p :: rest, selected, covered =>
    if 5 ≤ selected.length then (selected, covered)
    else
      let new_roles := p.roles.filter fun r => r ∉ covered
      if ¬ new_roles.isEmpty then
        firstPassClaim rest (selected ++ [p]) (covered ++ new_roles)
      else firstPassClaim rest selected covered

/-- The lineup algorithm as the claim describes it: greedy pass over
players contributing a new role, then fill by score. -/
def suggest_lineup_claim (players : List PlayerInfo) (target_team : Option String) :
    LineupSuggestion :=
  let sorted_players := sortPlayersDesc (lineup_pool players target_team)
  let sc := firstPassClaim sorted_players [] []
  let sc := secondPass sorted_players sc.1 sc.2
  let missing_roles := ROLE_PRIORITY.filter fun r => r ∉ sc.2
  { players := sc.1
    missing_roles := missing_roles
    is_complete := 5 ≤ sc.1.length
    has_all_roles := missing_roles.isEmpty }

/-! ## Concrete sample data used by counterexamples and witnesses -/

/-- A player who declared the controller role. -/
def cxPlayerOne : PlayerInfo := ⟨1, "p1", none, ["controller"], []⟩

/-- A second controller player (same score as the first). -/
def cxPlayerTwo : PlayerInfo := ⟨2, "p2", none, ["controller"], []⟩

/-- A player with no declared roles. -/
def cxPlayerNoRoles : PlayerInfo := ⟨3, "p3", none, [], []⟩

/-- A user record available on Wednesday. -/
def wedEntry : UserEntry :=
  { emptyEntry with display_name := some "u", days := some ["wednesday"] }

/-- Ten users available on Wednesday. -/
def tenWednesdayUsers : AvailState :=
  (List.range 10).map fun i => (i, wedEntry)

/-- Monday summary for a fresh pair of stores (no users, default config). -/
def mondaySummary : DaySummary :=
  buildDayPure initAvail (ensure_guild initConfig 1).1 false "monday"

/-- Wednesday summary for a fresh pair of stores. -/
def wednesdaySummary : DaySummary :=
  buildDayPure initAvail (ensure_guild initConfig 1).1 false "wednesday"

/-- The record of a user whose team value `"C"` is not a recognized team. -/
def carolEntry : UserEntry :=
  { emptyEntry with
    display_name := some "carol"
    team := some (some "C")
    days := some ["monday"] }

/-- One user whose team value `"C"` is not a recognized team. -/
def carolAvail : AvailState := [(7, carolEntry)]

/-- Monday summary when only `carol` (team `"C"`) signed up. -/
def carolMondaySummary : DaySummary :=
  buildDayPure carolAvail (ensure_guild initConfig 1).1 false "monday"

/-! ## Operation sequences over the availability store (for C5) -/

/-- The write operations of `AvailabilityStore`. -/
inductive StoreOp where
  | setAvail (user_id : Nat) (display_name : String) (team : Option String)
      (days : List String)
  | clearUser (user_id : Nat)
  | resetAll
  | setAgents (user_id : Nat) (display_name : String) (roles agents : List String)
  | clearAgents (user_id : Nat)
  | setTimezone (user_id : Nat) (tz : String)

/-- Run one store operation. -/
def applyOp (s : AvailState) : StoreOp → AvailState
  | .setAvail u n t d => set_availability s u n t d
  | .clearUser u => clear_user s u
  | .resetAll => reset_all s
  | .setAgents u n r ag => set_agents s u n r ag
  | .clearAgents u => clear_agents s u
  | .setTimezone u tz => set_user_timezone s u tz

/-- Run a sequence of store operations. -/
def applyOps (s : AvailState) (ops : List StoreOp) : AvailState :=
  ops.foldl applyOp s

/-- An operation only mentions days that lower-case to canonical names
(what the command layer guarantees via `normalize_day`). -/
def opDaysValid : StoreOp → Prop
  | .setAvail _ _ _ days => ∀ d ∈ days, lowerString d ∈ WEEK_DAYS
  | _ => True

/-- The invariant: every record's days list is duplicate-free and contains
only canonical day names. -/
def daysInv (s : AvailState) : Prop :=
  ∀ p ∈ s, (p.2.days.getD []).Nodup ∧ ∀ d ∈ p.2.days.getD [], d ∈ WEEK_DAYS

/-! ## Association-list lemmas -/

theorem insertBy_perm {α : Type} (le : α → α → Bool) (x : α) (l : List α) :
    List.Perm (insertBy le x l) (x :: l) := by
  induction l with
  | nil => simp [insertBy]
  | cons y ys ih =>
    by_cases h : le x y
    · simp [insertBy, h]
    · simp only [insertBy, h, if_neg, if_false]
      exact (ih.cons y).trans (List.Perm.swap x y ys)

theorem sortBy_perm {α : Type} (le : α → α → Bool) (l : List α) :
    List.Perm (sortBy le l) l := by
  induction l with
  | nil => simp [sortBy]
  | cons x xs ih =>
    exact (insertBy_perm le x (sortBy le xs)).trans (ih.cons x)

theorem mem_sortBy {α : Type} {le : α → α → Bool} {x : α} {l : List α} :
    x ∈ sortBy le l ↔ x ∈ l :=
  (sortBy_perm le l).mem_iff

theorem nodup_sortedStringSet (l : List String) :
    (sortedStringSet l).Nodup :=
  ((sortBy_perm strLeb l.dedup).nodup_iff).mpr l.nodup_dedup

theorem mem_sortedStringSet {l : List String} {s : String} :
    s ∈ sortedStringSet l ↔ s ∈ l := by
  unfold sortedStringSet
  rw [mem_sortBy, List.mem_dedup]


theorem alookup_aset_self {κ α : Type} [DecidableEq κ] (k : κ) (v : α)
    (m : List (κ × α)) : alookup k (aset k v m) = some v := by
  induction m with
  | nil => simp [aset, alookup]
  | cons p rest ih =>
    by_cases h : p.1 = k
    · simp [aset, h, alookup]
    · simp [aset, h, alookup, ih]

theorem aset_eq_of_alookup {κ α : Type} [DecidableEq κ] {k : κ} {v : α}
    {m : List (κ × α)} (h : alookup k m = some v) : aset k v m = m := by
  induction m with
  | nil => simp [alookup] at h
  | cons p rest ih =>
    by_cases hp : p.1 = k
    · simp only [alookup, hp, if_pos, Option.some.injEq] at h
      subst hp
      subst h
      simp [aset]
    · simp only [alookup, hp, if_neg, if_false] at h
      simp [aset, hp, ih h]

theorem alookup_append_of_none {κ α : Type} [DecidableEq κ] {k : κ}
    {m : List (κ × α)} (l : List (κ × α)) (h : alookup k m = none) :
    alookup k (m ++ l) = alookup k l := by
  induction m with
  | nil => simp
  | cons p rest ih =>
    by_cases hp : p.1 = k
    · simp [alookup, hp] at h
    · simp only [alookup, hp, if_neg, if_false] at h
      simp [alookup, hp, ih h]

theorem alookup_append_of_some {κ α : Type} [DecidableEq κ] {k : κ} {v : α}
    {m : List (κ × α)} (l : List (κ × α)) (h : alookup k m = some v) :
    alookup k (m ++ l) = some v := by
  induction m with
  | nil => simp [alookup] at h
  | cons p rest ih =>
    by_cases hp : p.1 = k
    · simp only [alookup, hp, if_pos, Option.some.injEq] at h
      simp [alookup, hp, h]
    · simp only [alookup, hp, if_neg, if_false] at h
      simp [alookup, hp, ih h]

theorem mem_aset_self {κ α : Type} [DecidableEq κ] (k : κ) (v : α)
    (m : List (κ × α)) : (k, v) ∈ aset k v m := by
  induction m with
  | nil => simp [aset]
  | cons p rest ih =>
    by_cases h : p.1 = k
    · simp [aset, h]
    · simp [aset, h, ih]

theorem mem_of_mem_aset {κ α : Type} [DecidableEq κ] {k : κ} {v : α}
    {q : κ × α} {m : List (κ × α)} (h : q ∈ aset k v m) :
    q = (k, v) ∨ q ∈ m := by
  induction m with
  | nil => simpa [aset] using h
  | cons p rest ih =>
    by_cases hp : p.1 = k
    · simp only [aset, hp, if_pos, List.mem_cons] at h
      rcases h with h | h
      · exact Or.inl h
      · exact Or.inr (List.mem_cons_of_mem _ h)
    · simp only [aset, hp, if_neg, if_false, List.mem_cons] at h
      rcases h with h | h
      · exact Or.inr (h ▸ List.mem_cons_self _ _)
      · rcases ih h with h | h
        · exact Or.inl h
        · exact Or.inr (List.mem_cons_of_mem _ h)

theorem keys_aset {κ α : Type} [DecidableEq κ] (k : κ) (v : α)
    (m : List (κ × α)) :
    (aset k v m).map Prod.fst = if (alookup k m).isSome then m.map Prod.fst
      else m.map Prod.fst ++ [k] := by
  induction m with
  | nil => simp [aset, alookup]
  | cons p rest ih =>
    by_cases h : p.1 = k
    · simp [aset, h, alookup]
    · simp only [aset, h, if_neg, if_false, alookup, List.map_cons, ih]
      by_cases h2 : (alookup k rest).isSome <;> simp [h2]

theorem alookup_isSome_iff_mem_keys {κ α : Type} [DecidableEq κ] {k : κ}
    {m : List (κ × α)} : (alookup k m).isSome ↔ k ∈ m.map Prod.fst := by
  induction m with
  | nil => simp [alookup]
  | cons p rest ih =>
    by_cases hp : p.1 = k
    · simp [alookup, hp]
    · rw [List.map_cons]
      simp only [alookup, hp, if_neg, if_false, List.mem_cons]
      rw [ih]
      constructor
      · exact fun h => Or.inr h
      · rintro (h | h)
        · exact absurd h.symm hp
        · exact h

theorem keys_nodup_aset {κ α : Type} [DecidableEq κ] {k : κ} {v : α}
    {m : List (κ × α)} (h : (m.map Prod.fst).Nodup) :
    ((aset k v m).map Prod.fst).Nodup := by
  rw [keys_aset]
  by_cases hl : (alookup k m).isSome
  · simpa [hl]
  · have hk : k ∉ m.map Prod.fst := fun hmem =>
      hl (alookup_isSome_iff_mem_keys.mpr hmem)
    simp only [hl, if_false]
    exact List.Nodup.append h (List.nodup_singleton k)
      (by simpa [List.disjoint_singleton] using hk)

theorem alookup_eq_of_mem_nodup {κ α : Type} [DecidableEq κ] {k : κ} {v : α}
    {m : List (κ × α)} (hnd : (m.map Prod.fst).Nodup) (h : (k, v) ∈ m) :
    alookup k m = some v := by
  induction m with
  | nil => simp at h
  | cons p rest ih =>
    rw [List.map_cons, List.nodup_cons] at hnd
    rcases List.mem_cons.mp h with h1 | h1
    · simp [alookup, ← h1]
    · have hp : p.1 ≠ k := fun hpk =>
        hnd.1 (hpk ▸ List.mem_map.mpr ⟨(k, v), h1, rfl⟩)
      simpa [alookup, hp] using ih hnd.2 h1

/-! ## `_ensure_guild` is idempotent -/

theorem asetdefault_of_isSome {κ α : Type} [DecidableEq κ] {k : κ} (v : α)
    {m : List (κ × α)} (h : (alookup k m).isSome) : asetdefault k v m = m := by
  simp [asetdefault, h]

theorem alookup_asetdefault_self {κ α : Type} [DecidableEq κ] (k : κ) (v : α)
    (m : List (κ × α)) : (alookup k (asetdefault k v m)).isSome := by
  unfold asetdefault
  by_cases h : (alookup k m).isSome
  · simp [h]
  · rw [if_neg h]
    rw [Option.not_isSome_iff_eq_none] at h
    simp [alookup_append_of_none _ h, alookup]

theorem alookup_asetdefault_preserved {κ α : Type} [DecidableEq κ] {k : κ}
    (k' : κ) (v : α) {m : List (κ × α)} (h : (alookup k m).isSome) :
    (alookup k (asetdefault k' v m)).isSome := by
  unfold asetdefault
  by_cases h2 : (alookup k' m).isSome
  · simpa [h2]
  · rw [if_neg h2]
    rcases Option.isSome_iff_exists.mp h with ⟨v0, hv0⟩
    simp [alookup_append_of_some _ hv0]

theorem setdefaultList_preserves {f : String → Option String} {k : String}
    (L : List String) {m : List (String × Option String)}
    (h : (alookup k m).isSome) :
    (alookup k (setdefaultList f L m)).isSome := by
  induction L generalizing m with
  | nil => exact h
  | cons d L ih =>
    exact ih (alookup_asetdefault_preserved d (f d) h)

theorem mem_setdefaultList_isSome {f : String → Option String} {d : String}
    {L : List String} (m : List (String × Option String)) (hd : d ∈ L) :
    (alookup d (setdefaultList f L m)).isSome := by
  induction L generalizing m with
  | nil => simp at hd
  | cons d0 L ih =>
    rcases List.mem_cons.mp hd with h | h
    · subst h
      exact setdefaultList_preserves L (alookup_asetdefault_self d (f d) m)
    · exact ih _ h

theorem setdefaultList_noop {f : String → Option String} {L : List String}
    {m : List (String × Option String)}
    (h : ∀ d ∈ L, (alookup d m).isSome) : setdefaultList f L m = m := by
  induction L with
  | nil => rfl
  | cons d L ih =>
    unfold setdefaultList
    rw [List.foldl_cons, asetdefault_of_isSome _ (h d (List.mem_cons_self d L))]
    exact ih fun d' hd' => h d' (List.mem_cons_of_mem d hd')

theorem setdefaultDays_idem (f : String → Option String)
    (m : List (String × Option String)) :
    setdefaultDays f (setdefaultDays f m) = setdefaultDays f m :=
  setdefaultList_noop fun _ hd => mem_setdefaultList_isSome m hd

theorem ensureGuildEntry_idem (g : GuildConfig) :
    ensureGuildEntry (ensureGuildEntry g) = ensureGuildEntry g := by
  simp [ensureGuildEntry, setdefaultDays_idem]

theorem ensureGuildEntry_fresh : ensureGuildEntry freshGuildConfig = freshGuildConfig := by
  decide

theorem ensure_guild_idem (c : ConfigState) (gid : Nat) :
    ensure_guild (ensure_guild c gid).2 gid =
      ((ensure_guild c gid).1, (ensure_guild c gid).2) := by
  unfold ensure_guild
  cases h : alookup gid c with
  | none =>
    have h2 : alookup gid (c ++ [(gid, freshGuildConfig)]) = some freshGuildConfig := by
      rw [alookup_append_of_none _ h]
      simp [alookup]
    simp [h2, ensureGuildEntry_fresh, aset_eq_of_alookup h2]
  | some g =>
    have h2 : alookup gid (aset gid (ensureGuildEntry g) c) = some (ensureGuildEntry g) :=
      alookup_aset_self gid _ c
    simp [h2, ensureGuildEntry_idem, aset_eq_of_alookup h2]

/-! ## `build_week` factors through the ensured guild config -/

theorem buildDay_eq (a : AvailState) (c : ConfigState) (gid : Nat)
    (incl : Bool) (day : String) :
    buildDay a c gid incl day =
      (buildDayPure a (ensure_guild c gid).1 incl day, (ensure_guild c gid).2) := by
  have h := ensure_guild_idem c gid
  simp only [buildDay, buildDayPure, get_premier_window, get_scrim_time,
    get_practice_time, get_premier_map, get_scrim_map, get_practice_map,
    get_locked_lineup, h]

theorem build_week_loop (a : AvailState) (gid : Nat) (incl : Bool)
    (E : GuildConfig) (L : List String) :
    ∀ (acc : List DaySummary) (c : ConfigState), ensure_guild c gid = (E, c) →
      L.foldl
        (fun acc day =>
          (acc.1 ++ [(buildDay a acc.2 gid incl day).1], (buildDay a acc.2 gid incl day).2))
        (acc, c) = (acc ++ L.map (buildDayPure a E incl), c) := by
  induction L with
  | nil => intro acc c _; simp
  | cons d L ih =>
    intro acc c hc
    rw [List.foldl_cons]
    have hstep : buildDay a c gid incl d = (buildDayPure a E incl d, c) := by
      rw [buildDay_eq, hc]
    simp only [hstep, ih (acc ++ [buildDayPure a E incl d]) c hc, List.map_cons,
      List.append_assoc, List.singleton_append]

theorem build_week_eq (a : AvailState) (c : ConfigState) (gid : Nat) (incl : Bool) :
    build_week a c gid incl =
      (WEEK_DAYS.map (buildDayPure a (ensure_guild c gid).1 incl),
        (ensure_guild c gid).2) := by
  unfold build_week
  show WEEK_DAYS.foldl _ ([], c) = _
  rw [show WEEK_DAYS = "monday" :: WEEK_DAYS.tail from rfl, List.foldl_cons]
  have hstep := buildDay_eq a c gid incl "monday"
  have hfix := ensure_guild_idem c gid
  simp only [hstep, List.nil_append]
  rw [build_week_loop a gid incl (ensure_guild c gid).1 WEEK_DAYS.tail
    [buildDayPure a (ensure_guild c gid).1 incl "monday"] (ensure_guild c gid).2 hfix]
  simp

/-! ## Claim C7 — idempotence of `build_week` -/

/-- C7: for every guild id and every fixed state of the two stores, calling
`build_week` twice in a row with no intervening writes yields two identical
lists of `DaySummary` values (the second call starts from the store state
the first call left behind). -/
theorem build_week_idempotent (a : AvailState) (c : ConfigState) (gid : Nat)
    (incl : Bool) :
    (build_week a (build_week a c gid incl).2 gid incl).1 =
      (build_week a c gid incl).1 := by
  have hfix := ensure_guild_idem c gid
  rw [build_week_eq a c gid incl]
  simp only [build_week_eq a (ensure_guild c gid).2 gid incl, hfix]

/-! ## Claim C4 — what `build_week` does to the stores -/

/-- C4 (amended): `build_week` never writes the availability store (it only
calls `users_for_day`), but it is **not** state-preserving on the config
store: its getters call `_ensure_guild`, which lazily installs default
config for the guild.  The whole state change is exactly that of a single
`_ensure_guild` call, and it is idempotent: a second `build_week` returns
the same summaries and leaves the config store unchanged. -/
theorem build_week_config_effect (a : AvailState) (c : ConfigState)
    (gid : Nat) (incl : Bool) :
    (build_week a c gid incl).2 = (ensure_guild c gid).2 ∧
    build_week a (build_week a c gid incl).2 gid incl =
      ((build_week a c gid incl).1, (build_week a c gid incl).2) := by
  have hfix := ensure_guild_idem c gid
  constructor
  · rw [build_week_eq]
  · rw [build_week_eq a c gid incl]
    simp only [build_week_eq a (ensure_guild c gid).2 gid incl, hfix]

/-- C4 counterexample: on a fresh config store, one `build_week` call
changes the config store's state (the guild's defaults get materialized),
so `build_week` is not free of side effects on the stores as claimed. -/
theorem build_week_mutates_config :
    (build_week initAvail initConfig 1 false).2 ≠ initConfig := by
  rw [build_week_eq]
  simp [ensure_guild, alookup, initConfig]

/-! ## Characterization of the per-user tally loop -/

theorem tally_foldl (us : List DayUser) (acc : DayTally) :
    us.foldl tallyStep acc =
      ⟨acc.countA + (us.filter fun u => normTeam u.team = "A").length,
       acc.countB + (us.filter fun u => normTeam u.team = "B").length,
       acc.names ++ us.map (fun u => u.display_name),
       acc.players ++ us.map playerOf⟩ := by
  induction us generalizing acc with
  | nil => simp
  | cons u us ih =>
    rw [List.foldl_cons, ih]
    by_cases hA : normTeam u.team = "A"
    · have hB : ¬ normTeam u.team = "B" := by rw [hA]; decide
      simp [tallyStep, hA, hB, List.filter_cons, DayTally.mk.injEq]
      omega
    · by_cases hB : normTeam u.team = "B"
      · simp [tallyStep, hA, hB, List.filter_cons, DayTally.mk.injEq]
        omega
      · simp [tallyStep, hA, hB, List.filter_cons, DayTally.mk.injEq]

theorem tallyUsers_eq (us : List DayUser) :
    tallyUsers us =
      ⟨(us.filter fun u => normTeam u.team = "A").length,
       (us.filter fun u => normTeam u.team = "B").length,
       us.map (fun u => u.display_name),
       us.map playerOf⟩ := by
  unfold tallyUsers
  rw [tally_foldl]
  simp

/-! ## Claim C2 — scrim readiness -/

/-- C2: for every guild and every day, if no scrim time is configured then
`scrim_ready` is false regardless of availability; if a scrim time is
configured then `scrim_ready ↔ total_available ≥ 10` and
`scrim_missing = max 0 (10 - total_available)`. -/
theorem scrim_readiness_spec (a : AvailState) (c : ConfigState) (gid : Nat)
    (incl : Bool) :
    ∀ s ∈ (build_week a c gid incl).1,
      (s.scrim_time = none → s.scrim_ready = false) ∧
      (s.scrim_time ≠ none →
        (s.scrim_ready = true ↔ 10 ≤ s.total_available) ∧
        s.scrim_missing = max 0 (10 - (s.total_available : Int))) := by
  intro s hs
  rw [build_week_eq] at hs
  simp only [List.mem_map] at hs
  obtain ⟨day, -, hs⟩ := hs
  subst hs
  cases hst : scrimTimeOf (ensure_guild c gid).1 day with
  | none => simp [buildDayPure, hst]
  | some t => simp [buildDayPure, hst]

/-! ## Claim C10 — case-insensitive team normalization -/

/-- C10: the tally loop of `build_week` normalizes each record's team with
`str.upper`, so a team value that upper-cases to `A`/`B` (for example `a`
or `b`) is counted for that team, and the `PlayerInfo` handed to the
lineup heuristic carries the normalized upper-case team letter. -/
theorem tally_team_case_insensitive (us : List DayUser) :
    (tallyUsers us).countA =
      (us.filter fun u => upperString (u.team.getD "") = "A").length ∧
    (tallyUsers us).countB =
      (us.filter fun u => upperString (u.team.getD "") = "B").length ∧
    (tallyUsers us).players = us.map playerOf ∧
    ∀ u : DayUser,
      (playerOf u).team =
        if upperString (u.team.getD "") = "A" ∨ upperString (u.team.getD "") = "B"
        then some (upperString (u.team.getD "")) else none := by
  refine ⟨?_, ?_, ?_, fun u => rfl⟩ <;> simp [tallyUsers_eq, normTeam]

/-! ## Claim C8 — unrecognized team values -/

/-- C8: in every day summary, `team_counts` counts exactly the users whose
normalized team is the recognized `A` or `B` — a user with any other team
value is silently left out of both tallies (no error), while still being
counted in `total_available` and listed in `available_names`. -/
theorem unrecognized_team_excluded (a : AvailState) (c : ConfigState)
    (gid : Nat) (incl : Bool) :
    ∀ s ∈ (build_week a c gid incl).1,
      s.team_counts =
        [("A", ((users_for_day a s.day).filter fun u => normTeam u.team = "A").length),
         ("B", ((users_for_day a s.day).filter fun u => normTeam u.team = "B").length)] ∧
      s.total_available = (users_for_day a s.day).length ∧
      s.available_names = (users_for_day a s.day).map fun u => u.display_name := by
  intro s hs
  rw [build_week_eq] at hs
  simp only [List.mem_map] at hs
  obtain ⟨day, -, hs⟩ := hs
  subst hs
  simp [buildDayPure, tallyUsers_eq]

/-! ## Claim C1 — premier team selection -/

theorem select_premier_pair (na nb : Nat) :
    select_premier_team [("A", na), ("B", nb)] =
      if 5 ≤ na then
        (if 5 ≤ nb then (if na < nb then some "B" else some "A") else some "A")
      else (if 5 ≤ nb then some "B" else none) := by
  by_cases h1 : 5 ≤ na <;> by_cases h2 : 5 ≤ nb <;>
    simp [select_premier_team, maxByFirst, h1, h2]
  split <;> simp

/-- C1: in every day summary, `premier_team` is non-null only when a
premier window is configured (a non-null, and per the spec's data-model
invariant non-empty, window string) and some team's count is at least 5;
when the window is configured and some team reaches 5, exactly one team is
selected whose count is maximal among the qualifying teams; otherwise
`premier_team` is null — never an error. -/
theorem premier_team_spec (a : AvailState) (c : ConfigState) (gid : Nat)
    (incl : Bool)
    (hvalid : ∀ day ∈ WEEK_DAYS, (get_premier_window c gid day).1 ≠ some "") :
    ∀ s ∈ (build_week a c gid incl).1,
      (s.premier_team ≠ none →
        s.premier_window ≠ none ∧ ∃ p ∈ s.team_counts, 5 ≤ p.2) ∧
      ((s.premier_window ≠ none ∧ ∃ p ∈ s.team_counts, 5 ≤ p.2) →
        ∃ t n, s.premier_team = some t ∧ (t, n) ∈ s.team_counts ∧ 5 ≤ n ∧
          ∀ q ∈ s.team_counts, 5 ≤ q.2 → q.2 ≤ n) ∧
      ((s.premier_window = none ∨ ∀ q ∈ s.team_counts, q.2 < 5) →
        s.premier_team = none) := by
  intro s hs
  rw [build_week_eq] at hs
  simp only [List.mem_map] at hs
  obtain ⟨day, hday, hs⟩ := hs
  have hw : premierWindowOf (ensure_guild c gid).1 day ≠ some "" := hvalid day hday
  subst hs
  simp only [buildDayPure]
  generalize (tallyUsers (users_for_day a day)).countA = na
  generalize (tallyUsers (users_for_day a day)).countB = nb
  cases hpw : premierWindowOf (ensure_guild c gid).1 day with
  | none => simp [optStrTruthy]
  | some w =>
    have hw2 : w ≠ "" := fun h => hw (by rw [hpw, h])
    have htr : optStrTruthy (some w) = true := by
      simpa [optStrTruthy] using hw2
    rw [htr]
    simp only [if_true, select_premier_pair]
    by_cases h1 : 5 ≤ na <;> by_cases h2 : 5 ≤ nb
    · by_cases h3 : na < nb
      · refine ⟨fun _ => ⟨by simp, ⟨("A", na), by simp, h1⟩⟩, fun _ => ?_, fun h => ?_⟩
        · exact ⟨"B", nb, by simp [h1, h2, h3], by simp, h2, by
            intro q hq
            rcases List.mem_cons.mp hq with rfl | hq
            · exact fun _ => le_of_lt h3
            · simp only [List.mem_singleton] at hq
              subst hq
              exact fun _ => le_refl nb⟩
        · rcases h with h | h
          · simp at h
          · exact absurd h1 (by simpa using Nat.not_le.mpr (h ("A", na) (by simp)))
      · refine ⟨fun _ => ⟨by simp, ⟨("A", na), by simp, h1⟩⟩, fun _ => ?_, fun h => ?_⟩
        · exact ⟨"A", na, by simp [h1, h2, h3], by simp, h1, by
            intro q hq
            rcases List.mem_cons.mp hq with rfl | hq
            · exact fun _ => le_refl na
            · simp only [List.mem_singleton] at hq
              subst hq
              exact fun _ => Nat.le_of_not_lt h3⟩
        · rcases h with h | h
          · simp at h
          · exact absurd h1 (by simpa using Nat.not_le.mpr (h ("A", na) (by simp)))
    · refine ⟨fun _ => ⟨by simp, ⟨("A", na), by simp, h1⟩⟩, fun _ => ?_, fun h => ?_⟩
      · exact ⟨"A", na, by simp [h1, h2], by simp, h1, by
          intro q hq
          rcases List.mem_cons.mp hq with rfl | hq
          · exact fun _ => le_refl na
          · simp only [List.mem_singleton] at hq
            subst hq
            exact fun hq5 => absurd hq5 h2⟩
      · rcases h with h | h
        · simp at h
        · exact absurd h1 (by simpa using Nat.not_le.mpr (h ("A", na) (by simp)))
    · refine ⟨fun _ => ⟨by simp, ⟨("B", nb), by simp, h2⟩⟩, fun _ => ?_, fun h => ?_⟩
      · exact ⟨"B", nb, by simp [h1, h2], by simp, h2, by
          intro q hq
          rcases List.mem_cons.mp hq with rfl | hq
          · exact fun hq5 => absurd hq5 h1
          · simp only [List.mem_singleton] at hq
            subst hq
            exact fun _ => le_refl nb⟩
      · rcases h with h | h
        · simp at h
        · exact absurd h2 (by simpa using Nat.not_le.mpr (h ("B", nb) (by simp)))
    · refine ⟨fun hne => absurd (by simp [h1, h2]) hne, fun h => ?_, fun _ => by simp [h1, h2]⟩
      obtain ⟨-, p, hp, hp5⟩ := h
      rcases List.mem_cons.mp hp with rfl | hp
      · exact absurd hp5 h1
      · simp only [List.mem_singleton] at hp
        subst hp
        exact absurd hp5 h2

/-! ## Witnesses for the claims proved with hypotheses -/

/-- Witness for C2 at a fresh pair of stores and the Monday summary. -/
theorem scrim_readiness_spec_witness :
    (mondaySummary.scrim_time = none → mondaySummary.scrim_ready = false) ∧
    (mondaySummary.scrim_time ≠ none →
      (mondaySummary.scrim_ready = true ↔ 10 ≤ mondaySummary.total_available) ∧
      mondaySummary.scrim_missing = max 0 (10 - (mondaySummary.total_available : Int))) :=
  scrim_readiness_spec initAvail initConfig 1 false mondaySummary (by
    rw [build_week_eq]
    exact List.mem_map_of_mem _ (by decide))

/-- Witness for C1 at a fresh pair of stores and the Wednesday summary
(whose default premier window `19:00-20:00` is non-empty). -/
theorem premier_team_spec_witness :
    (wednesdaySummary.premier_team ≠ none →
      wednesdaySummary.premier_window ≠ none ∧
      ∃ p ∈ wednesdaySummary.team_counts, 5 ≤ p.2) ∧
    ((wednesdaySummary.premier_window ≠ none ∧
        ∃ p ∈ wednesdaySummary.team_counts, 5 ≤ p.2) →
      ∃ t n, wednesdaySummary.premier_team = some t ∧
        (t, n) ∈ wednesdaySummary.team_counts ∧ 5 ≤ n ∧
        ∀ q ∈ wednesdaySummary.team_counts, 5 ≤ q.2 → q.2 ≤ n) ∧
    ((wednesdaySummary.premier_window = none ∨
        ∀ q ∈ wednesdaySummary.team_counts, q.2 < 5) →
      wednesdaySummary.premier_team = none) :=
  premier_team_spec initAvail initConfig 1 false (by decide) wednesdaySummary (by
    rw [build_week_eq]
    exact List.mem_map_of_mem _ (by decide))

/-- Witness for C8 with a single signup whose team value `"C"` is
unrecognized. -/
theorem unrecognized_team_excluded_witness :
    carolMondaySummary.team_counts =
      [("A", ((users_for_day carolAvail carolMondaySummary.day).filter
          fun u => normTeam u.team = "A").length),
       ("B", ((users_for_day carolAvail carolMondaySummary.day).filter
          fun u => normTeam u.team = "B").length)] ∧
    carolMondaySummary.total_available =
      (users_for_day carolAvail carolMondaySummary.day).length ∧
    carolMondaySummary.available_names =
      (users_for_day carolAvail carolMondaySummary.day).map fun u => u.display_name :=
  unrecognized_team_excluded carolAvail initConfig 1 false carolMondaySummary (by
    rw [build_week_eq]
    exact List.mem_map_of_mem _ (by decide))

/-! ## Claim C6 — the greedy lineup pass -/

/-- C6 counterexample: with two controller players and one player with no
declared roles, the code's first pass also selects the role-less player
(who contributes no uncovered role), so the final selection order differs
from the claim's description. -/
theorem lineup_first_pass_counterexample :
    suggest_lineup [cxPlayerOne, cxPlayerTwo, cxPlayerNoRoles] none ≠
      suggest_lineup_claim [cxPlayerOne, cxPlayerTwo, cxPlayerNoRoles] none := by
  decide

theorem firstPass_eq_claim (l : List PlayerInfo) :
    ∀ (sel : List PlayerInfo) (cov : List String), (∀ p ∈ l, p.roles ≠ []) →
      firstPass l sel cov = firstPassClaim l sel cov := by
  induction l with
  | nil => intro sel cov _; rfl
  | cons p rest ih =>
    intro sel cov h
    have hp : p.roles.isEmpty = false := by
      simpa [List.isEmpty_iff] using h p (List.mem_cons_self p rest)
    have hrest : ∀ q ∈ rest, q.roles ≠ [] := fun q hq => h q (List.mem_cons_of_mem p hq)
    by_cases hlen : 5 ≤ sel.length
    · simp [firstPass, firstPassClaim, hlen]
    · by_cases hnew : (p.roles.filter fun r => r ∉ cov).isEmpty
      · simp [firstPass, firstPassClaim, hlen, hnew, hp, ih _ _ hrest]
      · have hex : ∃ x ∈ p.roles, x ∉ cov := by
          rw [List.isEmpty_iff, List.filter_eq_nil_iff] at hnew
          push_neg at hnew
          simpa using hnew
        simp [firstPass, firstPassClaim, hlen, hnew, hex, ih _ _ hrest]

/-- C6 (amended): the claim's description of the selection is accurate
whenever every available player has at least one declared role; a player
with no declared roles is additionally accepted by the code's first pass
(`if new_roles or not player_roles`) even though it covers nothing new. -/
theorem mem_lineup_pool {players : List PlayerInfo} {target : Option String}
    {p : PlayerInfo} (hp : p ∈ lineup_pool players target) : p ∈ players := by
  simp only [lineup_pool] at hp
  split at hp
  · split at hp
    · exact List.mem_of_mem_filter hp
    · exact hp
  · exact hp

theorem lineup_greedy_spec (players : List PlayerInfo) (target : Option String)
    (h : ∀ p ∈ players, p.roles ≠ []) :
    suggest_lineup players target = suggest_lineup_claim players target := by
  have key : firstPass (sortPlayersDesc (lineup_pool players target)) [] [] =
      firstPassClaim (sortPlayersDesc (lineup_pool players target)) [] [] :=
    firstPass_eq_claim _ _ _ fun p hp =>
      h p (mem_lineup_pool (mem_sortBy.mp hp))
  simp only [suggest_lineup, suggest_lineup_claim, key]

/-- Witness for the amended C6: on an all-roles-declared pool the two
algorithms agree. -/
theorem lineup_greedy_spec_witness :
    suggest_lineup [cxPlayerOne, cxPlayerTwo] none =
      suggest_lineup_claim [cxPlayerOne, cxPlayerTwo] none :=
  lineup_greedy_spec [cxPlayerOne, cxPlayerTwo] none (by decide)

/-! ## Claim C3 — availability round trip -/

theorem alookup_some_mem {κ α : Type} [DecidableEq κ] {k : κ} {v : α}
    {m : List (κ × α)} (h : alookup k m = some v) : (k, v) ∈ m := by
  induction m with
  | nil => simp [alookup] at h
  | cons p rest ih =>
    by_cases hp : p.1 = k
    · simp only [alookup, hp, if_pos, Option.some.injEq] at h
      subst hp
      subst h
      exact List.mem_cons_self _ _
    · simp only [alookup, hp, if_neg, if_false] at h
      exact List.mem_cons_of_mem p (ih h)

theorem mem_users_for_day_of {s : AvailState} {d : String} {uid : Nat}
    {e : UserEntry} (hmem : (uid, e) ∈ s) (hd : lowerString d ∈ e.days.getD []) :
    uid ∈ (users_for_day s d).map DayUser.id := by
  unfold users_for_day
  refine List.mem_map.mpr ⟨_, List.mem_map.mpr ⟨(uid, e), List.mem_filter.mpr ⟨hmem, by simpa using hd⟩, rfl⟩, rfl⟩

theorem of_mem_users_for_day {s : AvailState} {d : String} {uid : Nat}
    (h : uid ∈ (users_for_day s d).map DayUser.id) :
    ∃ e, (uid, e) ∈ s ∧ lowerString d ∈ e.days.getD [] := by
  unfold users_for_day at h
  rw [List.map_map] at h
  rcases List.mem_map.mp h with ⟨p, hp, hid⟩
  rcases List.mem_filter.mp hp with ⟨hmem, hd⟩
  exact ⟨p.2, by rwa [show (uid, p.2) = p from Prod.ext hid.symm rfl], by simpa using hd⟩

/-- C3 counterexample: the claim's literal call stores the abbreviations
`"wed"`/`"fri"` unchanged (the store only lower-cases), so the canonical
day query `users_for_day("wednesday")` does **not** include the user. -/
theorem availability_round_trip_counterexample :
    1 ∉ ((users_for_day
      (set_availability initAvail 1 "alice" (some "A") ["wed", "fri"])
      "wednesday").map DayUser.id) := by
  decide

/-- C3 (amended): with the canonical day names — which the command layer's
`normalize_day` produces from `"wed"`/`"fri"` before calling the store —
the round trip holds: after `set_availability(u, name, team,
["wednesday", "friday"])` the Wednesday query includes `u` and the Monday
query excludes `u` (for a store whose keys are unique, as in a dict). -/
theorem availability_round_trip (s : AvailState) (u : Nat) (name : String)
    (team : Option String) (hnd : (s.map Prod.fst).Nodup) :
    u ∈ ((users_for_day (set_availability s u name team ["wednesday", "friday"])
      "wednesday").map DayUser.id) ∧
    u ∉ ((users_for_day (set_availability s u name team ["wednesday", "friday"])
      "monday").map DayUser.id) := by
  constructor
  · refine mem_users_for_day_of (mem_aset_self u _ s) ?_
    show lowerString "wednesday" ∈ sortedStringSet (["wednesday", "friday"].map lowerString)
    decide
  · intro hmem
    rcases of_mem_users_for_day hmem with ⟨e, hmem2, hd⟩
    have hl : alookup u (set_availability s u name team ["wednesday", "friday"]) =
        some e :=
      alookup_eq_of_mem_nodup (keys_nodup_aset hnd) hmem2
    rw [show set_availability s u name team ["wednesday", "friday"] =
      aset u _ s from rfl, alookup_aset_self] at hl
    cases hl
    have hd2 : lowerString "monday" ∈
        sortedStringSet (["wednesday", "friday"].map lowerString) := hd
    exact absurd hd2 (by decide)

/-- Witness for the amended C3 on a fresh store. -/
theorem availability_round_trip_witness :
    1 ∈ ((users_for_day (set_availability initAvail 1 "alice" (some "A")
      ["wednesday", "friday"]) "wednesday").map DayUser.id) ∧
    1 ∉ ((users_for_day (set_availability initAvail 1 "alice" (some "A")
      ["wednesday", "friday"]) "monday").map DayUser.id) :=
  availability_round_trip initAvail 1 "alice" (some "A") (by decide)

/-! ## Claim C9 — `clear_user` -/

/-- C9: after `clear_user`, the user's stored days read back empty while
the record's `display_name`, `team`, `roles`, `agents` (and timezone) are
untouched; for a user id with no record the store is left unchanged.
(The only record whose `days` key is not overwritten is the falsy empty
dict `{}`, which also reads back as no days.) -/
theorem clear_user_spec (s : AvailState) (uid : Nat) :
    get_user_days (clear_user s uid) uid = [] ∧
    (∀ e, alookup uid s = some e →
      ∃ e2, alookup uid (clear_user s uid) = some e2 ∧
        e2.display_name = e.display_name ∧ e2.team = e.team ∧
        e2.roles = e.roles ∧ e2.agents = e.agents ∧ e2.timezone = e.timezone) ∧
    (alookup uid s = none → clear_user s uid = s) := by
  cases h : alookup uid s with
  | none =>
    refine ⟨?_, ?_, fun _ => ?_⟩
    · simp [clear_user, get_user_days, h, emptyEntry]
    · intro e he
      simp at he
    · simp [clear_user, h]
  | some e =>
    by_cases hemp : e.isEmptyDict
    · have hdays : e.days = none := by
        simp only [UserEntry.isEmptyDict, Bool.and_eq_true, Option.isNone_iff_eq_none]
          at hemp
        exact hemp.1.1.1.2
      refine ⟨?_, ?_, ?_⟩
      · simp [clear_user, get_user_days, h, hemp, hdays]
      · intro e0 he0
        injection he0 with he0
        subst he0
        exact ⟨e, by simp [clear_user, h, hemp], rfl, rfl, rfl, rfl, rfl⟩
      · intro hn
        simp at hn
    · refine ⟨?_, ?_, ?_⟩
      · simp [clear_user, get_user_days, h, hemp, alookup_aset_self]
      · intro e0 he0
        injection he0 with he0
        subst he0
        refine ⟨{ e with days := some [] }, ?_, rfl, rfl, rfl, rfl, rfl⟩
        simp [clear_user, h, hemp, alookup_aset_self]
      · intro hn
        simp at hn

/-- Witness for C9: both the populated-record and the missing-record cases
of the theorem, instantiated at a one-user store. -/
theorem clear_user_spec_witness :
    get_user_days (clear_user carolAvail 7) 7 = [] ∧
    (∀ e, alookup 7 carolAvail = some e →
      ∃ e2, alookup 7 (clear_user carolAvail 7) = some e2 ∧
        e2.display_name = e.display_name ∧ e2.team = e.team ∧
        e2.roles = e.roles ∧ e2.agents = e.agents ∧ e2.timezone = e.timezone) ∧
    (alookup 7 carolAvail = none → clear_user carolAvail 7 = carolAvail) :=
  clear_user_spec carolAvail 7

/-! ## Claim C5 — the stored-days invariant -/

/-- C5 counterexample: the store validates nothing — `set_availability`
happily records `"funday"`, which is not a canonical day name. -/
theorem store_days_counterexample :
    "funday" ∈ get_user_days (set_availability initAvail 1 "x" none ["funday"]) 1 ∧
    "funday" ∉ WEEK_DAYS := by
  decide

theorem daysInv_applyOp {s : AvailState} (hs : daysInv s) {op : StoreOp}
    (hop : opDaysValid op) : daysInv (applyOp s op) := by
  cases op with
  | setAvail u n t d =>
    intro p hp
    simp only [applyOp, set_availability] at hp
    rcases mem_of_mem_aset hp with h | h
    · subst h
      refine ⟨?_, ?_⟩
      · simpa using nodup_sortedStringSet (d.map lowerString)
      · intro x hx
        simp only [Option.getD_some] at hx
        rcases List.mem_map.mp (mem_sortedStringSet.mp hx) with ⟨d0, hd0, rfl⟩
        exact hop d0 hd0
    · exact hs p h
  | clearUser u =>
    simp only [applyOp, clear_user]
    cases h : alookup u s with
    | none => exact hs
    | some e =>
      by_cases hemp : e.isEmptyDict
      · simpa [hemp] using hs
      · simp only [hemp, if_false]
        intro p hp
        rcases mem_of_mem_aset hp with h2 | h2
        · subst h2
          simp
        · exact hs p h2
  | resetAll =>
    intro p hp
    simp only [applyOp, reset_all] at hp
    rcases List.mem_map.mp hp with ⟨q, hq, rfl⟩
    simp
  | setAgents u n r ag =>
    intro p hp
    simp only [applyOp, set_agents] at hp
    rcases mem_of_mem_aset hp with h | h
    · subst h
      cases halk : alookup u s with
      | none => simp [halk, emptyEntry]
      | some e0 =>
        have := hs (u, e0) (alookup_some_mem halk)
        simpa [halk] using this
    · exact hs p h
  | clearAgents u =>
    simp only [applyOp, clear_agents]
    cases h : alookup u s with
    | none => exact hs
    | some e =>
      by_cases hemp : e.isEmptyDict
      · simpa [hemp] using hs
      · simp only [hemp, if_false]
        intro p hp
        rcases mem_of_mem_aset hp with h2 | h2
        · subst h2
          simpa using hs (u, e) (alookup_some_mem h)
        · exact hs p h2
  | setTimezone u tz =>
    intro p hp
    simp only [applyOp, set_user_timezone] at hp
    rcases mem_of_mem_aset hp with h | h
    · subst h
      cases halk : alookup u s with
      | none => simp [halk, emptyEntry]
      | some e0 =>
        have := hs (u, e0) (alookup_some_mem halk)
        simpa [halk] using this
    · exact hs p h

theorem daysInv_applyOps {s : AvailState} (hs : daysInv s) {ops : List StoreOp}
    (h : ∀ op ∈ ops, opDaysValid op) : daysInv (applyOps s ops) := by
  induction ops generalizing s with
  | nil => exact hs
  | cons op ops ih =>
    exact ih (daysInv_applyOp hs (h op (List.mem_cons_self op ops)))
      fun op2 hop2 => h op2 (List.mem_cons_of_mem op hop2)

/-- C5 (amended): after any sequence of store operations starting from the
fresh store, every user's days list is duplicate-free (it is rebuilt as a
sorted set on every write), and — provided every day passed to
`set_availability` lower-cases to a canonical name, as the command layer
guarantees — it contains only canonical lower-case day names.  Without
that proviso the store accepts arbitrary strings (see the counterexample). -/
theorem store_days_invariant (ops : List StoreOp)
    (hvalid : ∀ op ∈ ops, opDaysValid op) (uid : Nat) :
    (get_user_days (applyOps initAvail ops) uid).Nodup ∧
    ∀ d ∈ get_user_days (applyOps initAvail ops) uid, d ∈ WEEK_DAYS := by
  have hinv : daysInv (applyOps initAvail ops) :=
    daysInv_applyOps (by intro p hp; simp [initAvail] at hp) hvalid
  unfold get_user_days
  cases h : alookup uid (applyOps initAvail ops) with
  | none => simp [emptyEntry]
  | some e => simpa using hinv (uid, e) (alookup_some_mem h)

/-- Witness for the amended C5 after one valid `set_availability`. -/
theorem store_days_invariant_witness :
    (get_user_days (applyOps initAvail
      [StoreOp.setAvail 1 "x" (some "A") ["Wednesday"]]) 1).Nodup ∧
    ∀ d ∈ get_user_days (applyOps initAvail
      [StoreOp.setAvail 1 "x" (some "A") ["Wednesday"]]) 1, d ∈ WEEK_DAYS :=
  store_days_invariant [StoreOp.setAvail 1 "x" (some "A") ["Wednesday"]]
    (by
      intro op hop
      simp only [List.mem_singleton] at hop
      subst hop
      show ∀ d ∈ ["Wednesday"], lowerString d ∈ WEEK_DAYS
      decide) 1

end Discordbot
